import Mathlib

set_option maxHeartbeats 1000000

namespace Slang

/-- One four-state bit: 0, 1, X (unknown) or Z (high impedance).
Modelled from the spec: the four-state integer primitive (`SVInt`) is an
external collaborator of the evaluator core (spec sections 1 and 6); each bit
holds one of 0/1/X/Z and operations propagate X/Z per HDL semantics. -/
inductive LogicBit where
  | zero
  | one
  | xv
  | zv
deriving DecidableEq

/-- Whether a bit is X or Z (an "unknown" bit). -/
def LogicBit.isUnknown : LogicBit → Bool
  | .xv => true
  | .zv => true
  | _ => false

/-- Modelled from the spec: a four-state integer is a bit vector (here LSB
first); width is the list length. -/
abbrev SVInt := List LogicBit

/-- Whether any bit of the vector is X or Z. -/
def hasUnknown (v : SVInt) : Bool := v.any LogicBit.isUnknown

/-- Numeric contribution of a single definite bit. -/
def bitVal : LogicBit → Nat
  | .one => 1
  | _ => 0

/-- Numeric value of a definite bit vector (LSB first). -/
def toNatVal : SVInt → Nat
  | [] => 0
  | b :: rest => bitVal b + 2 * toNatVal rest

/-- Build a definite bit vector of the given width from a natural number
(truncating modulo 2 ^ width). -/
def ofNat : Nat → Nat → SVInt
  | 0, _ => []
  | w + 1, n => (if n % 2 = 1 then .one else .zero) :: ofNat w (n / 2)

/-- An all-X vector of the given width (result of arithmetic on unknowns). -/
def allX (w : Nat) : SVInt := List.replicate w .xv

/-- Zero-extend a vector to (at least) the given width. -/
def zext (w : Nat) (v : SVInt) : SVInt := v ++ List.replicate (w - v.length) .zero

/-- Four-state bitwise AND on single bits. -/
def bitAnd : LogicBit → LogicBit → LogicBit
  | .zero, _ => .zero
  | _, .zero => .zero
  | .one, .one => .one
  | _, _ => .xv

/-- Four-state bitwise OR on single bits. -/
def bitOr : LogicBit → LogicBit → LogicBit
  | .one, _ => .one
  | _, .one => .one
  | .zero, .zero => .zero
  | _, _ => .xv

/-- Four-state bitwise NOT on single bits. -/
def bitNot : LogicBit → LogicBit
  | .zero => .one
  | .one => .zero
  | _ => .xv

/-- Four-state bitwise XOR on single bits. -/
def bitXor (a b : LogicBit) : LogicBit :=
  if a.isUnknown || b.isUnknown then .xv
  else if a = b then .zero else .one

/-- Four-state bitwise XNOR on single bits. -/
def bitXnor (a b : LogicBit) : LogicBit := bitNot (bitXor a b)

/-- Apply a bitwise operation pointwise after zero-extending both operands to
the common width. -/
def mapBits2 (f : LogicBit → LogicBit → LogicBit) (a b : SVInt) : SVInt :=
  let w := max a.length b.length
  List.zipWith f (zext w a) (zext w b)

/-- Modelled from the spec: four-state addition; any unknown bit poisons the
whole result; otherwise numeric addition truncated to the common width. -/
def addSV (a b : SVInt) : SVInt :=
  let w := max a.length b.length
  if hasUnknown a || hasUnknown b then allX w
  else ofNat w (toNatVal a + toNatVal b)

/-- Modelled from the spec: four-state subtraction. -/
def subSV (a b : SVInt) : SVInt :=
  let w := max a.length b.length
  if hasUnknown a || hasUnknown b then allX w
  else ofNat w (2 ^ w + toNatVal a - toNatVal b)

/-- Modelled from the spec: four-state multiplication. -/
def mulSV (a b : SVInt) : SVInt :=
  let w := max a.length b.length
  if hasUnknown a || hasUnknown b then allX w
  else ofNat w (toNatVal a * toNatVal b)

/-- Modelled from the spec: four-state division; division by zero yields
all-X. -/
def divSV (a b : SVInt) : SVInt :=
  let w := max a.length b.length
  if hasUnknown a || hasUnknown b || toNatVal b = 0 then allX w
  else ofNat w (toNatVal a / toNatVal b)

/-- Modelled from the spec: four-state modulo; modulo by zero yields all-X. -/
def modSV (a b : SVInt) : SVInt :=
  let w := max a.length b.length
  if hasUnknown a || hasUnknown b || toNatVal b = 0 then allX w
  else ofNat w (toNatVal a % toNatVal b)

/-- Four-state bitwise AND of two vectors. -/
def andSV (a b : SVInt) : SVInt := mapBits2 bitAnd a b

/-- Four-state bitwise OR of two vectors. -/
def orSV (a b : SVInt) : SVInt := mapBits2 bitOr a b

/-- Four-state bitwise XOR of two vectors. -/
def xorSV (a b : SVInt) : SVInt := mapBits2 bitXor a b

/-- Four-state bitwise XNOR of two vectors (`SVInt::xnor`). -/
def xnorSV (a b : SVInt) : SVInt := mapBits2 bitXnor a b

/-- Four-state bitwise complement of a vector (`operator~`). -/
def notSV (v : SVInt) : SVInt := v.map bitNot

/-- Reduction AND (`SVInt::reductionAnd`): definite 0 if any bit is 0, X if
any remaining bit is unknown, else 1. -/
def reductionAnd (v : SVInt) : LogicBit :=
  if v.any (fun b => b = LogicBit.zero) then .zero
  else if hasUnknown v then .xv
  else .one

/-- Reduction OR (`SVInt::reductionOr`): definite 1 if any bit is 1, X if any
remaining bit is unknown, else 0. -/
def reductionOr (v : SVInt) : LogicBit :=
  if v.any (fun b => b = LogicBit.one) then .one
  else if hasUnknown v then .xv
  else .zero

/-- Reduction XOR (`SVInt::reductionXor`): X if any bit is unknown, else the
parity of the number of 1 bits. -/
def reductionXor (v : SVInt) : LogicBit :=
  if hasUnknown v then .xv
  else if (v.count .one) % 2 = 1 then .one else .zero

/-- Modelled from the spec: logical negation of a vector collapses it through
its truth value: definite 0 if any bit is 1, definite 1 if all bits are
definite 0, X otherwise. -/
def logicNotSV (v : SVInt) : LogicBit := bitNot (reductionOr v)

/-- Modelled from the spec: conversion of a vector to a single logic value
(`(logic_t)SVInt`): X if any bit is unknown, else whether the value is
nonzero. -/
def toLogic (v : SVInt) : LogicBit :=
  if hasUnknown v then .xv
  else if toNatVal v ≠ 0 then .one else .zero

/-- Collapse of a logic value to a definite boolean (`(bool)logic_t`): only a
definite 1 is true; 0, X and Z are all false. -/
def logicToBool : LogicBit → Bool
  | .one => true
  | _ => false

/-- Modelled from the spec: *logical* equality (`operator==`), the standard
tri-state comparison: if either operand contains X/Z bits the result is the
unknown logic value, otherwise a definite bit comparing the numeric values. -/
def logicEqSV (a b : SVInt) : LogicBit :=
  if hasUnknown a || hasUnknown b then .xv
  else if toNatVal a = toNatVal b then .one else .zero

/-- Modelled from the spec: *case* equality (`exactlyEqual`), the exact
structural bit-pattern match including X/Z positions, always a definite
boolean; operands are zero-extended to the common width first. -/
def exactlyEqual (a b : SVInt) : Bool :=
  let w := max a.length b.length
  zext w a = zext w b

/-- Modelled from the spec: four-state unsigned less-than. -/
def ltSV (a b : SVInt) : LogicBit :=
  if hasUnknown a || hasUnknown b then .xv
  else if toNatVal a < toNatVal b then .one else .zero

/-- Modelled from the spec: four-state unsigned less-or-equal. -/
def leSV (a b : SVInt) : LogicBit :=
  if hasUnknown a || hasUnknown b then .xv
  else if toNatVal a ≤ toNatVal b then .one else .zero

/-- Modelled from the spec: four-state arithmetic negation (`operator-`). -/
def negSV (v : SVInt) : SVInt :=
  if hasUnknown v then allX v.length
  else ofNat v.length (2 ^ v.length - toNatVal v)

/-- Modelled from the spec: `ConstantValue` is tagged as either `Empty`
(`none`, the propagation sentinel, falsy) or an `Integer` (`some`) carrying a
four-state bit vector. -/
abbrev ConstantValue := Option SVInt

/-- A fatal outcome of evaluation: either an `ASSERT` / unreachable-default
firing, or extraction of the integer out of an `Empty` `ConstantValue`. -/
inductive Fault where
  | assertFail
  | emptyAccess
deriving DecidableEq

/-- Modelled from the spec: `ConstantValue::integer()` extracts the `Integer`
variant; the `ConstantValue` type is not part of the evaluator core's source,
and on the `Empty` variant the extraction is a variant-access fault, not a
value. -/
def ConstantValue.integer : ConstantValue → Except Fault SVInt
  | some v => .ok v
  | none => .error .emptyAccess

/-- Operator / syntax kinds reaching the evaluator's switch statements
(`SyntaxKind` in the source; only the kinds named in the switches). -/
inductive SyntaxKind where
  | UnaryPlusExpression
  | UnaryMinusExpression
  | UnaryBitwiseNotExpression
  | UnaryBitwiseAndExpression
  | UnaryBitwiseOrExpression
  | UnaryBitwiseXorExpression
  | UnaryBitwiseNandExpression
  | UnaryBitwiseNorExpression
  | UnaryBitwiseXnorExpression
  | UnaryLogicalNotExpression
  | AddExpression
  | SubtractExpression
  | MultiplyExpression
  | DivideExpression
  | ModExpression
  | BinaryAndExpression
  | BinaryOrExpression
  | BinaryXorExpression
  | BinaryXnorExpression
  | EqualityExpression
  | InequalityExpression
  | CaseEqualityExpression
  | CaseInequalityExpression
  | GreaterThanEqualExpression
  | GreaterThanExpression
  | LessThanEqualExpression
  | LessThanExpression
  | AssignmentExpression
  | AddAssignmentExpression
  | SubtractAssignmentExpression
  | MultiplyAssignmentExpression
  | DivideAssignmentExpression
  | ModAssignmentExpression
  | AndAssignmentExpression
  | OrAssignmentExpression
  | XorAssignmentExpression
deriving DecidableEq

/-- Bound expression/statement tree (`BoundNode`), already elaborated;
each node carries its `bad` flag. A call node carries the invoked
subroutine's formal-parameter symbols (in declaration order) and its body,
as exposed by the subroutine symbol, together with the actual argument
expressions. -/
inductive BoundNode where
  | Literal (value : ConstantValue) (bad : Bool)
  | Parameter (value : ConstantValue) (bad : Bool)
  | Variable (symbol : Nat) (bad : Bool)
  | UnaryExpression (op : SyntaxKind) (operand : BoundNode) (bad : Bool)
  | BinaryExpression (op : SyntaxKind) (left right : BoundNode) (bad : Bool)
  | AssignmentExpression (op : SyntaxKind) (left right : BoundNode) (bad : Bool)
  | CallExpression (formals : List Nat) (args : List BoundNode) (body : BoundNode) (bad : Bool)
  | StatementList (list : List BoundNode) (bad : Bool)
  | ReturnStatement (expr : BoundNode) (bad : Bool)

/-- The node's invalid marker (`BoundNode::bad()`). -/
def BoundNode.bad : BoundNode → Bool
  | .Literal _ b => b
  | .Parameter _ b => b
  | .Variable _ b => b
  | .UnaryExpression _ _ b => b
  | .BinaryExpression _ _ _ b => b
  | .AssignmentExpression _ _ _ b => b
  | .CallExpression _ _ _ b => b
  | .StatementList _ b => b
  | .ReturnStatement _ b => b

/-- Key-presence lookup in a frame's temporaries table. -/
def lookupTemp : List (Nat × ConstantValue) → Nat → Option ConstantValue
  | [], _ => none
  | (k, v) :: rest, key => if k = key then some v else lookupTemp rest key

/-- Read through `operator[]`: the mapped value, or the default-constructed
`Empty` value when the key is absent. -/
def getTemp (m : List (Nat × ConstantValue)) (key : Nat) : ConstantValue :=
  match lookupTemp m key with
  | some v => v
  | none => none

/-- Write through `operator[]`: update the entry when present, insert it
otherwise. -/
def setTemp : List (Nat × ConstantValue) → Nat → ConstantValue → List (Nat × ConstantValue)
  | [], key, v => [(key, v)]
  | (k, w) :: rest, key, v =>
    if k = key then (k, v) :: rest else (k, w) :: setTemp rest key v

/-- The insertion side effect of `operator[]`: ensure an entry for the key
exists, default-constructed (`Empty`) when it was absent. -/
def ensureTemp (m : List (Nat × ConstantValue)) (key : Nat) : List (Nat × ConstantValue) :=
  match lookupTemp m key with
  | some _ => m
  | none => m ++ [(key, none)]

/-- One call frame (`Frame`): the temporaries table binding declaration
symbols to values. The parent link is represented by the position in the
evaluator state's frame stack. -/
structure Frame where
  temporaries : List (Nat × ConstantValue)
deriving DecidableEq

/-- The evaluator's mutable state: the current frame (`currentFrame` points
at it) and the chain of parent frames below it (innermost caller first, root
frame last). -/
structure EvalState where
  current : Frame
  stack : List Frame
deriving DecidableEq

/-- The freshly constructed evaluator: the root frame is current, no
parents. -/
def initState : EvalState := ⟨⟨[]⟩, []⟩

/-- Replace the current frame's binding for a symbol (a store through an
`LValue` whose storage points into the current frame's table). -/
def storeCurrent (S : EvalState) (key : Nat) (v : ConstantValue) : EvalState :=
  ⟨⟨setTemp S.current.temporaries key v⟩, S.stack⟩

/-- Read the current frame's binding for a symbol (`LValue::load`). -/
def loadCurrent (S : EvalState) (key : Nat) : ConstantValue :=
  getTemp S.current.temporaries key

/-- `ConstantEvaluator::evaluateVariable`: `currentFrame->temporaries[symbol]`
(inserting a default entry when absent), then `ASSERT(val)` — an `Empty`
binding is a fatal assertion failure. -/
def evaluateVariable (symbol : Nat) (S : EvalState) : Except Fault (ConstantValue × EvalState) :=
  let m := ensureTemp S.current.temporaries symbol
  match getTemp m symbol with
  | some v => .ok (some v, ⟨⟨m⟩, S.stack⟩)
  | none => .error .assertFail

/-- `ConstantEvaluator::evaluateLValue`: only a variable reference is a legal
lvalue; it resolves to that symbol's slot in the current frame (the
`operator[]` access inserts a default entry when absent). Any other node kind
is an unreachable-default fatal failure. The boolean result of the source is
rendered as `some symbol` for `true`; the (never taken) `false` path would be
`none`. -/
def evaluateLValue (expr : BoundNode) (S : EvalState) : Except Fault (Option Nat × EvalState) :=
  match expr with
  | .Variable symbol _ =>
    .ok (some symbol, ⟨⟨ensureTemp S.current.temporaries symbol⟩, S.stack⟩)
  | _ => .error .assertFail

/-- The unary operator switch of `evaluateUnary`, applied to the operand's
integer. -/
def applyUnaryOp (k : SyntaxKind) (v : SVInt) : Except Fault SVInt :=
  match k with
  | .UnaryPlusExpression => .ok v
  | .UnaryMinusExpression => .ok (negSV v)
  | .UnaryBitwiseNotExpression => .ok (notSV v)
  | .UnaryBitwiseAndExpression => .ok [reductionAnd v]
  | .UnaryBitwiseOrExpression => .ok [reductionOr v]
  | .UnaryBitwiseXorExpression => .ok [reductionXor v]
  | .UnaryBitwiseNandExpression => .ok [bitNot (reductionAnd v)]
  | .UnaryBitwiseNorExpression => .ok [bitNot (reductionOr v)]
  | .UnaryBitwiseXnorExpression => .ok [bitNot (reductionXor v)]
  | .UnaryLogicalNotExpression => .ok [logicNotSV v]
  | _ => .error .assertFail

/-- The binary operator switch of `evaluateBinary`, applied to the operand
integers. -/
def applyBinaryOp (k : SyntaxKind) (l r : SVInt) : Except Fault SVInt :=
  match k with
  | .AddExpression => .ok (addSV l r)
  | .SubtractExpression => .ok (subSV l r)
  | .MultiplyExpression => .ok (mulSV l r)
  | .DivideExpression => .ok (divSV l r)
  | .ModExpression => .ok (modSV l r)
  | .BinaryAndExpression => .ok (andSV l r)
  | .BinaryOrExpression => .ok (orSV l r)
  | .BinaryXorExpression => .ok (xorSV l r)
  | .BinaryXnorExpression => .ok (xnorSV l r)
  | .EqualityExpression => .ok [logicEqSV l r]
  | .InequalityExpression => .ok [bitNot (logicEqSV l r)]
  | .CaseEqualityExpression => .ok [if exactlyEqual l r then .one else .zero]
  | .CaseInequalityExpression => .ok [if exactlyEqual l r then .zero else .one]
  | .GreaterThanEqualExpression => .ok [leSV r l]
  | .GreaterThanExpression => .ok [ltSV r l]
  | .LessThanEqualExpression => .ok [leSV l r]
  | .LessThanExpression => .ok [ltSV l r]
  | _ => .error .assertFail

/-- The compound-assignment switch of `evaluateAssignment`: the value stored
for each assignment kind, from the re-read left value `l` and the right value
`r`; a plain assignment stores the right-hand `ConstantValue` itself; the
(commented-out) shift-assignment kinds and every non-assignment kind fall to
the unreachable default. -/
def assignedValue (k : SyntaxKind) (rvalue : ConstantValue) (l r : SVInt) : Except Fault ConstantValue :=
  match k with
  | .AssignmentExpression => .ok rvalue
  | .AddAssignmentExpression => .ok (some (addSV l r))
  | .SubtractAssignmentExpression => .ok (some (subSV l r))
  | .MultiplyAssignmentExpression => .ok (some (mulSV l r))
  | .DivideAssignmentExpression => .ok (some (divSV l r))
  | .ModAssignmentExpression => .ok (some (modSV l r))
  | .AndAssignmentExpression => .ok (some (andSV l r))
  | .OrAssignmentExpression => .ok (some (orSV l r))
  | .XorAssignmentExpression => .ok (some (xorSV l r))
  | _ => .error .assertFail

mutual

/-- `ConstantEvaluator::evaluate`: returns `Empty` for a bad node, otherwise
dispatches on the node kind. State threading renders the mutation of the
frame stack; a `Fault` renders an `ASSERT` / unreachable-default abort or a
variant access on `Empty`. -/
def evaluate (tree : BoundNode) (S : EvalState) : Except Fault (ConstantValue × EvalState) :=
  if tree.bad then .ok (none, S)
  else
    match tree with
    | .Literal value _ => .ok (value, S)
    | .Parameter value _ => .ok (value, S)
    | .Variable symbol _ => evaluateVariable symbol S
    | .UnaryExpression op operand _ =>
      match evaluate operand S with
      | .error f => .error f
      | .ok (cv, S₁) =>
        match cv.integer with
        | .error f => .error f
        | .ok v =>
          match applyUnaryOp op v with
          | .error f => .error f
          | .ok res => .ok (some res, S₁)
    | .BinaryExpression op left right _ =>
      match evaluate left S with
      | .error f => .error f
      | .ok (cvl, S₁) =>
        match cvl.integer with
        | .error f => .error f
        | .ok l =>
          match evaluate right S₁ with
          | .error f => .error f
          | .ok (cvr, S₂) =>
            match cvr.integer with
            | .error f => .error f
            | .ok r =>
              match applyBinaryOp op l r with
              | .error f => .error f
              | .ok res => .ok (some res, S₂)
    | .AssignmentExpression op left right _ =>
      match evaluateLValue left S with
      | .error f => .error f
      | .ok (none, S₁) => .ok (none, S₁)
      | .ok (some lvalue, S₁) =>
        match evaluate right S₁ with
        | .error f => .error f
        | .ok (rvalue, S₂) =>
          match evaluate left S₂ with
          | .error f => .error f
          | .ok (cvl, S₃) =>
            match cvl.integer with
            | .error f => .error f
            | .ok l =>
              match rvalue.integer with
              | .error f => .error f
              | .ok r =>
                match assignedValue op rvalue l r with
                | .error f => .error f
                | .ok stored =>
                  let S₄ := storeCurrent S₃ lvalue stored
                  .ok (loadCurrent S₄ lvalue, S₄)
    | .CallExpression formals args body _ =>
      match evalBindArgs formals args [] S with
      | .error f => .error f
      | .ok (binds, S₁) =>
        match evaluate body ⟨⟨binds⟩, S₁.current :: S₁.stack⟩ with
        | .error f => .error f
        | .ok (result, S₃) =>
          match S₃.stack with
          | [] => .error .assertFail
          | parent :: rest => .ok (result, ⟨parent, rest⟩)
    | .StatementList list _ =>
      match list with
      | [] => .ok (none, S)
      | first :: _ => evaluate first S
    | .ReturnStatement e _ => evaluate e S

/-- The argument loop of `evaluateCall`: for each formal parameter in
declaration order, evaluate the matching argument expression in the caller's
(current) state and record the binding into the new frame's table
(accumulated in `acc`); running out of argument expressions while formals
remain is an out-of-bounds access, a fault. -/
def evalBindArgs (formals : List Nat) (args : List BoundNode)
    (acc : List (Nat × ConstantValue)) (S : EvalState) :
    Except Fault (List (Nat × ConstantValue) × EvalState) :=
  match formals, args with
  | [], _ => .ok (acc, S)
  | _ :: _, [] => .error .assertFail
  | f :: fs, a :: as' =>
    match evaluate a S with
    | .error f' => .error f'
    | .ok (v, S₁) => evalBindArgs fs as' (setTemp acc f v) S₁

end

/-- `ConstantEvaluator::evaluateBool`: evaluate, treat `Empty` as `false`,
otherwise collapse the integer through its logic truth to a definite
boolean. -/
def evaluateBool (tree : BoundNode) (S : EvalState) : Except Fault (Bool × EvalState) :=
  match evaluate tree S with
  | .error f => .error f
  | .ok (cv, S₁) =>
    match cv with
    | none => .ok (false, S₁)
    | some v => .ok (logicToBool (toLogic v), S₁)

/-- The state of the evaluator after resolving a variable lvalue: the current
frame gains at most a default-constructed entry for the symbol. -/
def afterResolve (S : EvalState) (x : Nat) : EvalState :=
  ⟨⟨ensureTemp S.current.temporaries x⟩, S.stack⟩

/-- The correspondence from each compound-assignment operator kind to the
binary operator kind it combines with before storing. -/
def correspondingBinaryOp : SyntaxKind → Option SyntaxKind
  | .AddAssignmentExpression => some .AddExpression
  | .SubtractAssignmentExpression => some .SubtractExpression
  | .MultiplyAssignmentExpression => some .MultiplyExpression
  | .DivideAssignmentExpression => some .DivideExpression
  | .ModAssignmentExpression => some .ModExpression
  | .AndAssignmentExpression => some .BinaryAndExpression
  | .OrAssignmentExpression => some .BinaryOrExpression
  | .XorAssignmentExpression => some .BinaryXorExpression
  | _ => none

/-- Evaluation never grows or shrinks the parent-frame chain: a successful
evaluation returns with the same frame stack below the current frame
(calls push and pop symmetrically). -/
def StackPres1 (tree : BoundNode) (S : EvalState) : Prop :=
  ∀ v S', evaluate tree S = Except.ok (v, S') → S'.stack = S.stack

def StackPres2 (formals : List Nat) (args : List BoundNode)
    (acc : List (Nat × ConstantValue)) (S : EvalState) : Prop :=
  ∀ r S', evalBindArgs formals args acc S = Except.ok (r, S') → S'.stack = S.stack


theorem evaluate_stack_eq (tree : BoundNode) (S : EvalState) : StackPres1 tree S := by
  refine evaluate.induct StackPres1 StackPres2 ?_ ?_ ?_ ?_ ?_ ?_ ?_ ?_ ?_ ?_ ?_ ?_ ?_ ?_ ?_ ?_ ?_ ?_ ?_ ?_ ?_ ?_ ?_ ?_ ?_ ?_ ?_ ?_ ?_ ?_ ?_ ?_ ?_ tree S
  case refine_1 =>
    intro t S0 hbad v S' heq
    rw [evaluate.eq_def] at heq
    simp only [hbad, if_true] at heq
    simp only [Except.ok.injEq, Prod.mk.injEq] at heq
    obtain ⟨h1, h2⟩ := heq
    subst h2
    rfl
  case refine_4 =>
    intro S0 sym b hbad
    intro v S' heq
    rw [Bool.not_eq_true] at hbad
    subst hbad
    simp only [evaluate, BoundNode.bad, evaluateVariable] at heq
    cases hg : getTemp (ensureTemp S0.current.temporaries sym) sym with
    | some w =>
      rw [hg] at heq
      simp at heq
      obtain ⟨h1, h2⟩ := heq
      subst h2
      rfl
    | none =>
      rw [hg] at heq
      simp at heq
  case refine_16 =>
    intro S0 op l r b S1 hlv hbad
    cases l <;> simp [evaluateLValue] at hlv
  case refine_22 =>
    intro S0 op l r b lv S2 hlv cv S3 hr cv1 S4 hl res hil res1 hir stored hav hbad ihr ihl
    intro v S' heq
    have hst : S2.stack = S0.stack := by
      have h := hlv
      cases l <;> simp [evaluateLValue] at h
      obtain ⟨h1, h2⟩ := h
      subst h2
      rfl
    rw [Bool.not_eq_true] at hbad
    subst hbad
    simp [evaluate, BoundNode.bad, hlv, hr, hl, hil, hir, hav, storeCurrent] at heq
    obtain ⟨h1, h2⟩ := heq
    subst h2
    simp only []
    rw [ihl cv1 S4 hl, ihr cv S3 hr, hst]
  case refine_26 =>
    intro S0 formals args body b binds S1 hargs cv S2 hbody parent rest hstk hbad iha ihb
    intro v S' heq
    rw [Bool.not_eq_true] at hbad
    subst hbad
    simp [evaluate, BoundNode.bad, hargs, hbody, hstk] at heq
    obtain ⟨h1, h2⟩ := heq
    subst h2
    have hb := ihb cv S2 hbody
    rw [hstk] at hb
    injection hb with hp hre
    have ha := iha binds S1 hargs
    simp only [hre, ha]
  case refine_33 =>
    intro acc S0 f fs a as2 cv S1 ha ih1 ih2
    intro r S' heq
    simp only [evalBindArgs, ha] at heq
    exact (ih2 r S' heq).trans (ih1 cv S1 ha)
  all_goals intros
  all_goals intro v S' heq
  all_goals try simp only [evaluate, evalBindArgs] at heq
  all_goals try simp_all only [StackPres1, StackPres2, Except.ok.injEq, Prod.mk.injEq]
  all_goals try simp_all [evaluate, evalBindArgs, evaluateVariable, evaluateLValue, StackPres1, StackPres2, storeCurrent, loadCurrent]

theorem evalBindArgs_stack_eq (formals : List Nat) (args : List BoundNode)
    (acc : List (Nat × ConstantValue)) (S : EvalState) : StackPres2 formals args acc S := by
  refine evalBindArgs.induct StackPres1 StackPres2 ?_ ?_ ?_ ?_ ?_ ?_ ?_ ?_ ?_ ?_ ?_ ?_ ?_ ?_ ?_ ?_ ?_ ?_ ?_ ?_ ?_ ?_ ?_ ?_ ?_ ?_ ?_ ?_ ?_ ?_ ?_ ?_ ?_ formals args acc S
  case refine_1 =>
    intro t S0 hbad v S' heq
    rw [evaluate.eq_def] at heq
    simp only [hbad, if_true] at heq
    simp only [Except.ok.injEq, Prod.mk.injEq] at heq
    obtain ⟨h1, h2⟩ := heq
    subst h2
    rfl
  case refine_4 =>
    intro S0 sym b hbad
    intro v S' heq
    rw [Bool.not_eq_true] at hbad
    subst hbad
    simp only [evaluate, BoundNode.bad, evaluateVariable] at heq
    cases hg : getTemp (ensureTemp S0.current.temporaries sym) sym with
    | some w =>
      rw [hg] at heq
      simp at heq
      obtain ⟨h1, h2⟩ := heq
      subst h2
      rfl
    | none =>
      rw [hg] at heq
      simp at heq
  case refine_16 =>
    intro S0 op l r b S1 hlv hbad
    cases l <;> simp [evaluateLValue] at hlv
  case refine_22 =>
    intro S0 op l r b lv S2 hlv cv S3 hr cv1 S4 hl res hil res1 hir stored hav hbad ihr ihl
    intro v S' heq
    have hst : S2.stack = S0.stack := by
      have h := hlv
      cases l <;> simp [evaluateLValue] at h
      obtain ⟨h1, h2⟩ := h
      subst h2
      rfl
    rw [Bool.not_eq_true] at hbad
    subst hbad
    simp [evaluate, BoundNode.bad, hlv, hr, hl, hil, hir, hav, storeCurrent] at heq
    obtain ⟨h1, h2⟩ := heq
    subst h2
    simp only []
    rw [ihl cv1 S4 hl, ihr cv S3 hr, hst]
  case refine_26 =>
    intro S0 formals args body b binds S1 hargs cv S2 hbody parent rest hstk hbad iha ihb
    intro v S' heq
    rw [Bool.not_eq_true] at hbad
    subst hbad
    simp [evaluate, BoundNode.bad, hargs, hbody, hstk] at heq
    obtain ⟨h1, h2⟩ := heq
    subst h2
    have hb := ihb cv S2 hbody
    rw [hstk] at hb
    injection hb with hp hre
    have ha := iha binds S1 hargs
    simp only [hre, ha]
  case refine_33 =>
    intro acc S0 f fs a as2 cv S1 ha ih1 ih2
    intro r S' heq
    simp only [evalBindArgs, ha] at heq
    exact (ih2 r S' heq).trans (ih1 cv S1 ha)
  all_goals intros
  all_goals intro v S' heq
  all_goals try simp only [evaluate, evalBindArgs] at heq
  all_goals try simp_all only [StackPres1, StackPres2, Except.ok.injEq, Prod.mk.injEq]
  all_goals try simp_all [evaluate, evalBindArgs, evaluateVariable, evaluateLValue, StackPres1, StackPres2, storeCurrent, loadCurrent]


/-- Looking up in a table extended on the right: the left part wins. -/
theorem lookupTemp_append (m₁ m₂ : List (Nat × ConstantValue)) (k : Nat) :
    lookupTemp (m₁ ++ m₂) k =
      match lookupTemp m₁ k with
      | some v => some v
      | none => lookupTemp m₂ k := by
  induction m₁ with
  | nil => simp [lookupTemp]
  | cons hd tl ih =>
    obtain ⟨k', v'⟩ := hd
    by_cases hk : k' = k <;> simp [lookupTemp, hk, ih]

/-- The `operator[]` insertion side effect never changes the value any key
maps to (an absent key still reads as the default `Empty`). -/
theorem getTemp_ensureTemp (m : List (Nat × ConstantValue)) (k k' : Nat) :
    getTemp (ensureTemp m k) k' = getTemp m k' := by
  unfold ensureTemp
  cases h : lookupTemp m k with
  | some v => rfl
  | none =>
    unfold getTemp
    rw [lookupTemp_append]
    cases h' : lookupTemp m k' with
    | some v => rfl
    | none =>
      by_cases hk : k' = k
      · subst hk
        simp [lookupTemp]
      · have hne : k ≠ k' := fun hh => hk hh.symm
        simp [lookupTemp, hne]

/-- Updating a key then reading it back gives the stored value. -/
theorem lookupTemp_setTemp_self (m : List (Nat × ConstantValue)) (k : Nat) (v : ConstantValue) :
    lookupTemp (setTemp m k v) k = some v := by
  induction m with
  | nil => simp [setTemp, lookupTemp]
  | cons hd tl ih =>
    obtain ⟨k', v'⟩ := hd
    by_cases hk : k' = k <;> simp [setTemp, lookupTemp, hk, ih]

/-- Reading back a stored value through `operator[]`. -/
theorem getTemp_setTemp_self (m : List (Nat × ConstantValue)) (k : Nat) (v : ConstantValue) :
    getTemp (setTemp m k v) k = v := by
  unfold getTemp
  rw [lookupTemp_setTemp_self]

/-- A bound key is present in the table. -/
theorem lookupTemp_of_getTemp_some (m : List (Nat × ConstantValue)) (k : Nat) (w : SVInt)
    (h : getTemp m k = some w) : lookupTemp m k = some (some w) := by
  unfold getTemp at h
  cases h' : lookupTemp m k with
  | some v => rw [h'] at h; simp at h; rw [h]
  | none => rw [h'] at h; simp at h

/-- If a key is present, the `operator[]` insertion is the identity. -/
theorem ensureTemp_of_present (m : List (Nat × ConstantValue)) (k : Nat) (v : ConstantValue)
    (h : lookupTemp m k = some v) : ensureTemp m k = m := by
  unfold ensureTemp
  rw [h]

/-- C2: lvalue resolution never creates a binding. For every expression the
resolver accepts, every symbol's binding (with the `Empty` default for absent
keys) in the current frame is unchanged, and the frame stack is unchanged —
writing to an unbound variable is not a declare-on-first-write path. -/
theorem evaluateLValue_no_new_binding (expr : BoundNode) (S : EvalState)
    (r : Option Nat) (S' : EvalState)
    (h : evaluateLValue expr S = .ok (r, S')) :
    (∀ sym, getTemp S'.current.temporaries sym = getTemp S.current.temporaries sym)
    ∧ S'.stack = S.stack := by
  cases expr <;> simp [evaluateLValue] at h
  obtain ⟨h1, h2⟩ := h
  subst h2
  exact ⟨fun sym => getTemp_ensureTemp _ _ sym, rfl⟩

/-- Witness for C2 at a concrete unbound symbol. -/
theorem evaluateLValue_no_new_binding_witness :
    (∀ sym, getTemp (afterResolve initState 0).current.temporaries sym
      = getTemp initState.current.temporaries sym)
    ∧ (afterResolve initState 0).stack = initState.stack :=
  evaluateLValue_no_new_binding (.Variable 0 false) initState (some 0)
    (afterResolve initState 0) rfl

/-- C9: a non-empty statement list evaluates to exactly the evaluation of its
first statement — the remaining statements are never evaluated and none of
their effects occur (the resulting state is that of the first statement
alone). -/
theorem statement_list_first_only (first : BoundNode) (rest : List BoundNode) (S : EvalState) :
    evaluate (.StatementList (first :: rest) false) S = evaluate first S := by
  simp [evaluate, BoundNode.bad]

/-- C1 is violated by the code: a unary (or binary) operator whose operand is
a node marked invalid — which evaluates to `Empty` — does not short-circuit
to `Empty`; the evaluator extracts `.integer()` out of the `Empty` operand
and faults. -/
theorem empty_operand_faults :
    evaluate (.UnaryExpression .UnaryMinusExpression (.Literal (some [LogicBit.one]) true) false)
      initState = .error .emptyAccess
    ∧ evaluate (.BinaryExpression .AddExpression (.Literal (some [LogicBit.one]) false)
        (.Literal (some [LogicBit.one]) true) false) initState = .error .emptyAccess
    ∧ evaluate (.Literal (some [LogicBit.one]) true) initState = .ok (none, initState) := by
  refine ⟨?_, ?_, ?_⟩ <;>
    simp [evaluate, BoundNode.bad, ConstantValue.integer]


/-- C10: a plain assignment also evaluates its left-hand side as an rvalue
before storing, even though that old value is unused. If the target is still
unbound (Empty) after the right-hand side is evaluated, the evaluation
reaches the variable-read assertion (a fault) instead of creating a first
binding; when the target is bound, the assertion branch is not taken and the
assignment completes with the store. -/
theorem plain_assignment_reads_lhs :
    (∀ (x : Nat) (rhs : BoundNode) (S S₂ : EvalState) (rv : ConstantValue),
      evaluate rhs (afterResolve S x) = .ok (rv, S₂) →
      getTemp S₂.current.temporaries x = none →
      evaluate (.AssignmentExpression .AssignmentExpression (.Variable x false) rhs false) S
        = .error .assertFail)
    ∧ (∀ (x : Nat) (rhs : BoundNode) (S S₂ : EvalState) (v u : SVInt),
      evaluate rhs (afterResolve S x) = .ok (some v, S₂) →
      getTemp S₂.current.temporaries x = some u →
      evaluate (.AssignmentExpression .AssignmentExpression (.Variable x false) rhs false) S
        = .ok (some v, storeCurrent S₂ x (some v))) := by
  constructor
  · intro x rhs S S₂ rv hr hx
    have h1 : getTemp (ensureTemp S₂.current.temporaries x) x = none := by
      rw [getTemp_ensureTemp]; exact hx
    simp only [afterResolve] at hr
    simp [evaluate, BoundNode.bad, evaluateLValue, evaluateVariable, hr, h1]
  · intro x rhs S S₂ v u hr hx
    have hpres := lookupTemp_of_getTemp_some _ _ _ hx
    have hens := ensureTemp_of_present _ _ _ hpres
    simp only [afterResolve] at hr
    simp [evaluate, BoundNode.bad, evaluateLValue, evaluateVariable, ConstantValue.integer,
      assignedValue, hens, hx, hr, storeCurrent, loadCurrent, getTemp_setTemp_self]

/-- Witness for C10 at symbol 0: unbound in the empty root frame (fault), and
bound to 3 in a one-binding frame (successful store of 5). -/
theorem plain_assignment_reads_lhs_witness :
    evaluate (.AssignmentExpression .AssignmentExpression (.Variable 0 false)
        (.Literal (some (ofNat 3 5)) false) false) initState = .error .assertFail
    ∧ evaluate (.AssignmentExpression .AssignmentExpression (.Variable 0 false)
        (.Literal (some (ofNat 3 5)) false) false) ⟨⟨[(0, some (ofNat 3 3))]⟩, []⟩
        = .ok (some (ofNat 3 5),
            storeCurrent (afterResolve ⟨⟨[(0, some (ofNat 3 3))]⟩, []⟩ 0) 0 (some (ofNat 3 5))) :=
  ⟨plain_assignment_reads_lhs.1 0 (.Literal (some (ofNat 3 5)) false) initState
      (afterResolve initState 0) (some (ofNat 3 5))
      (by simp [evaluate, BoundNode.bad]) (by decide),
   plain_assignment_reads_lhs.2 0 (.Literal (some (ofNat 3 5)) false)
      ⟨⟨[(0, some (ofNat 3 3))]⟩, []⟩ (afterResolve ⟨⟨[(0, some (ofNat 3 3))]⟩, []⟩ 0)
      (ofNat 3 5) (ofNat 3 3)
      (by simp [evaluate, BoundNode.bad]) (by decide)⟩

/-- C3: a plain assignment whose right-hand side evaluates to `v` stores `v`,
itself evaluates to `v` (the value held by the lvalue after the store), and a
subsequent read of the variable in the same frame also yields `v`. -/
theorem assignment_returns_stored_value (x : Nat) (rhs : BoundNode) (S S₂ : EvalState)
    (v w : SVInt)
    (hr : evaluate rhs (afterResolve S x) = .ok (some v, S₂))
    (hl : getTemp S₂.current.temporaries x = some w) :
    evaluate (.AssignmentExpression .AssignmentExpression (.Variable x false) rhs false) S
      = .ok (some v, storeCurrent S₂ x (some v))
    ∧ evaluate (.Variable x false) (storeCurrent S₂ x (some v))
      = .ok (some v, storeCurrent S₂ x (some v)) := by
  have hpres := lookupTemp_of_getTemp_some _ _ _ hl
  have hens := ensureTemp_of_present _ _ _ hpres
  simp only [afterResolve] at hr
  constructor
  · simp [evaluate, BoundNode.bad, evaluateLValue, evaluateVariable, ConstantValue.integer,
      assignedValue, hens, hl, hr, storeCurrent, loadCurrent, getTemp_setTemp_self]
  · have h2 := lookupTemp_setTemp_self S₂.current.temporaries x (some v)
    have h3 := ensureTemp_of_present _ _ _ h2
    simp [evaluate, BoundNode.bad, evaluateVariable, storeCurrent, h3, getTemp_setTemp_self]

/-- Witness for C3: with 0 bound to 3, the assignment 0 = 5 yields 5 and 0
then reads as 5. -/
theorem assignment_returns_stored_value_witness :
    evaluate (.AssignmentExpression .AssignmentExpression (.Variable 0 false)
        (.Literal (some (ofNat 3 5)) false) false) ⟨⟨[(0, some (ofNat 3 3))]⟩, []⟩
      = .ok (some (ofNat 3 5),
          storeCurrent (afterResolve ⟨⟨[(0, some (ofNat 3 3))]⟩, []⟩ 0) 0 (some (ofNat 3 5)))
    ∧ evaluate (.Variable 0 false)
        (storeCurrent (afterResolve ⟨⟨[(0, some (ofNat 3 3))]⟩, []⟩ 0) 0 (some (ofNat 3 5)))
      = .ok (some (ofNat 3 5),
          storeCurrent (afterResolve ⟨⟨[(0, some (ofNat 3 3))]⟩, []⟩ 0) 0 (some (ofNat 3 5))) :=
  assignment_returns_stored_value 0 (.Literal (some (ofNat 3 5)) false)
    ⟨⟨[(0, some (ofNat 3 3))]⟩, []⟩ (afterResolve ⟨⟨[(0, some (ofNat 3 3))]⟩, []⟩ 0)
    (ofNat 3 5) (ofNat 3 3)
    (by simp [evaluate, BoundNode.bad]) (by decide)

/-- C4: a compound assignment re-reads the current left-hand value after the
right-hand side has been evaluated (a second evaluation of the lvalue
expression, not a snapshot from resolution) and combines it with the
right-hand value through the corresponding binary operator before storing;
the expression yields the stored combination and the variable is then bound
to it. -/
theorem compound_assignment_rereads (k k' : SyntaxKind) (x : Nat) (rhs : BoundNode)
    (S S₂ : EvalState) (r l res : SVInt)
    (hk : correspondingBinaryOp k = some k')
    (hr : evaluate rhs (afterResolve S x) = .ok (some r, S₂))
    (hl : getTemp S₂.current.temporaries x = some l)
    (hres : applyBinaryOp k' l r = .ok res) :
    evaluate (.AssignmentExpression k (.Variable x false) rhs false) S
      = .ok (some res, storeCurrent S₂ x (some res))
    ∧ evaluate (.Variable x false) (storeCurrent S₂ x (some res))
      = .ok (some res, storeCurrent S₂ x (some res)) := by
  have hpres := lookupTemp_of_getTemp_some _ _ _ hl
  have hens := ensureTemp_of_present _ _ _ hpres
  have h2 := lookupTemp_setTemp_self S₂.current.temporaries x (some res)
  have h3 := ensureTemp_of_present _ _ _ h2
  simp only [afterResolve] at hr
  cases k <;> simp [correspondingBinaryOp] at hk
  all_goals subst hk
  all_goals simp [applyBinaryOp] at hres
  all_goals refine ⟨?_, ?_⟩
  all_goals simp [evaluate, BoundNode.bad, evaluateLValue, evaluateVariable,
    ConstantValue.integer, assignedValue, hens, hl, hr, hres, h3, storeCurrent,
    loadCurrent, getTemp_setTemp_self]

/-- Witness for C4: with 0 bound to 3, evaluating 0 += 4 yields 7 and 0 is
then bound to 7. -/
theorem compound_assignment_rereads_witness :
    evaluate (.AssignmentExpression .AddAssignmentExpression (.Variable 0 false)
        (.Literal (some (ofNat 3 4)) false) false) ⟨⟨[(0, some (ofNat 3 3))]⟩, []⟩
      = .ok (some (ofNat 3 7),
          storeCurrent (afterResolve ⟨⟨[(0, some (ofNat 3 3))]⟩, []⟩ 0) 0 (some (ofNat 3 7)))
    ∧ evaluate (.Variable 0 false)
        (storeCurrent (afterResolve ⟨⟨[(0, some (ofNat 3 3))]⟩, []⟩ 0) 0 (some (ofNat 3 7)))
      = .ok (some (ofNat 3 7),
          storeCurrent (afterResolve ⟨⟨[(0, some (ofNat 3 3))]⟩, []⟩ 0) 0 (some (ofNat 3 7))) :=
  compound_assignment_rereads .AddAssignmentExpression .AddExpression 0
    (.Literal (some (ofNat 3 4)) false)
    ⟨⟨[(0, some (ofNat 3 3))]⟩, []⟩ (afterResolve ⟨⟨[(0, some (ofNat 3 3))]⟩, []⟩ 0)
    (ofNat 3 4) (ofNat 3 3) (ofNat 3 7)
    rfl (by simp [evaluate, BoundNode.bad]) (by decide) rfl


/-- One-step unfolding of evaluation at a (non-bad) call node: evaluate all
arguments into the new frame's table, then run the body with the new frame
pushed, then pop. -/
theorem evaluateCall_eq (formals : List Nat) (args : List BoundNode) (body : BoundNode)
    (S : EvalState) :
    evaluate (.CallExpression formals args body false) S =
      match evalBindArgs formals args [] S with
      | .error f => .error f
      | .ok (binds, S₁) =>
        match evaluate body ⟨⟨binds⟩, S₁.current :: S₁.stack⟩ with
        | .error f => .error f
        | .ok (result, S₃) =>
          match S₃.stack with
          | [] => .error .assertFail
          | parent :: rest => .ok (result, ⟨parent, rest⟩) := by
  simp [evaluate, BoundNode.bad]

/-- C8: the boolean-condition query returns `false` when evaluation yields
`Empty`, `false` when the value contains X/Z bits (four-state truth collapses
to a definite boolean), and the definite logical truth of the integer value
otherwise. -/
theorem evaluateBool_collapse (tree : BoundNode) (S : EvalState) (cv : ConstantValue)
    (S' : EvalState) (h : evaluate tree S = .ok (cv, S')) :
    (cv = none → evaluateBool tree S = .ok (false, S'))
    ∧ (∀ u, cv = some u → hasUnknown u = true → evaluateBool tree S = .ok (false, S'))
    ∧ (∀ u, cv = some u → hasUnknown u = false →
        evaluateBool tree S = .ok (decide (toNatVal u ≠ 0), S')) := by
  refine ⟨?_, ?_, ?_⟩
  · intro hc
    subst hc
    simp [evaluateBool, h]
  · intro u hc hu
    subst hc
    simp [evaluateBool, h, toLogic, hu, logicToBool]
  · intro u hc hu
    subst hc
    simp [evaluateBool, h, toLogic, hu]
    by_cases hz : toNatVal u = 0 <;> simp [hz, logicToBool]

/-- Witness for C8: an Empty result reads as false, an all-X value reads as
false, a definite 1 reads as true. -/
theorem evaluateBool_collapse_witness :
    evaluateBool (.Literal none false) initState = .ok (false, initState)
    ∧ evaluateBool (.Literal (some [LogicBit.xv]) false) initState = .ok (false, initState)
    ∧ evaluateBool (.Literal (some [LogicBit.one]) false) initState
      = .ok (decide (toNatVal [LogicBit.one] ≠ 0), initState) :=
  ⟨(evaluateBool_collapse (.Literal none false) initState none initState
      (by simp [evaluate, BoundNode.bad])).1 rfl,
   (evaluateBool_collapse (.Literal (some [LogicBit.xv]) false) initState
      (some [LogicBit.xv]) initState (by simp [evaluate, BoundNode.bad])).2.1
      [LogicBit.xv] rfl rfl,
   (evaluateBool_collapse (.Literal (some [LogicBit.one]) false) initState
      (some [LogicBit.one]) initState (by simp [evaluate, BoundNode.bad])).2.2
      [LogicBit.one] rfl rfl⟩

/-- C5: argument evaluation is sequential in the caller's state — each
argument is fully evaluated (with its side effects threaded) before the next
begins, the accumulated new-frame bindings never feed into any argument's
evaluation state, the new frame is built and becomes current only after all
arguments are done, and an argument that reads a symbol bound only in the
callee's new frame faults instead of seeing that binding. -/
theorem call_args_in_caller_frame :
    (∀ (f : Nat) (fs : List Nat) (a : BoundNode) (as2 : List BoundNode)
        (acc : List (Nat × ConstantValue)) (S : EvalState),
      evalBindArgs (f :: fs) (a :: as2) acc S =
        match evaluate a S with
        | .error f' => .error f'
        | .ok (v, S₁) => evalBindArgs fs as2 (setTemp acc f v) S₁)
    ∧ (∀ (formals : List Nat) (args : List BoundNode) (body : BoundNode) (S : EvalState)
        (v : ConstantValue) (S' : EvalState),
      evaluate (.CallExpression formals args body false) S = .ok (v, S') →
      ∃ binds S₁ S₃, evalBindArgs formals args [] S = .ok (binds, S₁)
        ∧ evaluate body ⟨⟨binds⟩, S₁.current :: S₁.stack⟩ = .ok (v, S₃))
    ∧ evaluate (.CallExpression [0, 1] [.Literal (some [LogicBit.one]) false, .Variable 0 false]
        (.Variable 1 false) false) initState = .error .assertFail := by
  refine ⟨?_, ?_, ?_⟩
  · intro f fs a as2 acc S
    cases h : evaluate a S <;> simp [evalBindArgs, h]
  · intro formals args body S v S' h
    rw [evaluateCall_eq] at h
    cases hargs : evalBindArgs formals args [] S with
    | error f => simp only [hargs] at h; simp at h
    | ok p =>
      obtain ⟨binds, S₁⟩ := p
      simp only [hargs] at h
      cases hbody : evaluate body ⟨⟨binds⟩, S₁.current :: S₁.stack⟩ with
      | error f => simp only [hbody] at h; simp at h
      | ok q =>
        obtain ⟨res, S₃⟩ := q
        simp only [hbody] at h
        cases hst : S₃.stack with
        | nil => simp only [hst] at h; simp at h
        | cons parent rest =>
          simp only [hst] at h
          simp at h
          obtain ⟨h1, h2⟩ := h
          subst h1
          exact ⟨binds, S₁, S₃, rfl, hbody⟩
  · simp [evaluate, evalBindArgs, BoundNode.bad, evaluateVariable, initState, ensureTemp,
      lookupTemp, getTemp, setTemp]

/-- Witness for C5 conjunct two at a concrete call: one formal bound to a
literal, body reading it back. -/
theorem call_args_in_caller_frame_witness :
    ∃ binds S₁ S₃,
      evalBindArgs [5] [.Literal (some [LogicBit.one]) false] [] initState = .ok (binds, S₁)
      ∧ evaluate (.Variable 5 false) ⟨⟨binds⟩, S₁.current :: S₁.stack⟩
        = .ok (some [LogicBit.one], S₃) :=
  call_args_in_caller_frame.2.1 [5] [.Literal (some [LogicBit.one]) false] (.Variable 5 false)
    initState (some [LogicBit.one]) initState
    (by simp [evaluate, evalBindArgs, BoundNode.bad, evaluateVariable, initState, ensureTemp,
      lookupTemp, getTemp, setTemp])

/-- C6: when evaluation of a call completes, the current frame reverts to the
caller's frame and the parent chain is exactly as before the call (the callee
frame and its bindings are discarded, appearing nowhere in the resulting
state), and the call's result is exactly the value the body evaluation
produced. -/
theorem call_restores_caller_frame (formals : List Nat) (args : List BoundNode)
    (body : BoundNode) (S : EvalState) (v : ConstantValue) (S' : EvalState)
    (h : evaluate (.CallExpression formals args body false) S = .ok (v, S')) :
    ∃ binds S₁ S₃,
      evalBindArgs formals args [] S = .ok (binds, S₁)
      ∧ evaluate body ⟨⟨binds⟩, S₁.current :: S₁.stack⟩ = .ok (v, S₃)
      ∧ S' = ⟨S₁.current, S₁.stack⟩
      ∧ S'.stack = S.stack := by
  rw [evaluateCall_eq] at h
  cases hargs : evalBindArgs formals args [] S with
  | error f => simp only [hargs] at h; simp at h
  | ok p =>
    obtain ⟨binds, S₁⟩ := p
    simp only [hargs] at h
    cases hbody : evaluate body ⟨⟨binds⟩, S₁.current :: S₁.stack⟩ with
    | error f => simp only [hbody] at h; simp at h
    | ok q =>
      obtain ⟨res, S₃⟩ := q
      simp only [hbody] at h
      cases hst : S₃.stack with
      | nil => simp only [hst] at h; simp at h
      | cons parent rest =>
        simp only [hst] at h
        simp at h
        obtain ⟨h1, h2⟩ := h
        subst h1
        have hb := evaluate_stack_eq body ⟨⟨binds⟩, S₁.current :: S₁.stack⟩ res S₃ hbody
        rw [hst] at hb
        injection hb with hp hr2
        have ha := evalBindArgs_stack_eq formals args [] S binds S₁ hargs
        subst hp
        subst hr2
        exact ⟨binds, S₁, S₃, rfl, hbody, h2.symm, by rw [← h2]; exact ha⟩

/-- Witness for C6 at the same concrete call as C5. -/
theorem call_restores_caller_frame_witness :
    ∃ binds S₁ S₃,
      evalBindArgs [5] [.Literal (some [LogicBit.one]) false] [] initState = .ok (binds, S₁)
      ∧ evaluate (.Variable 5 false) ⟨⟨binds⟩, S₁.current :: S₁.stack⟩
        = .ok (some [LogicBit.one], S₃)
      ∧ initState = ⟨S₁.current, S₁.stack⟩
      ∧ initState.stack = initState.stack :=
  call_restores_caller_frame [5] [.Literal (some [LogicBit.one]) false] (.Variable 5 false)
    initState (some [LogicBit.one]) initState
    (by simp [evaluate, evalBindArgs, BoundNode.bad, evaluateVariable, initState, ensureTemp,
      lookupTemp, getTemp, setTemp])


/-- Appending zero bits above the most significant bit does not change the
numeric value. -/
theorem toNatVal_append_zeros (v : SVInt) (n : Nat) :
    toNatVal (v ++ List.replicate n LogicBit.zero) = toNatVal v := by
  induction v with
  | nil =>
    simp only [List.nil_append]
    induction n with
    | zero => simp [toNatVal]
    | succ m ih => simp [List.replicate, toNatVal, ih, bitVal]
  | cons b rest ih => simp [toNatVal, ih]

/-- Zero extension preserves the numeric value. -/
theorem toNatVal_zext (w : Nat) (v : SVInt) : toNatVal (zext w v) = toNatVal v :=
  toNatVal_append_zeros v _

/-- Zero extension introduces no unknown bits. -/
theorem hasUnknown_zext (w : Nat) (v : SVInt) : hasUnknown (zext w v) = hasUnknown v := by
  unfold zext hasUnknown
  rw [List.any_append]
  have hrep : (List.replicate (w - v.length) LogicBit.zero).any LogicBit.isUnknown = false := by
    induction (w - v.length) with
    | zero => simp
    | succ m ih => simp [List.replicate, LogicBit.isUnknown, ih]
  rw [hrep, Bool.or_false]

/-- Zero extension to at least the vector's length gives exactly the target
width. -/
theorem zext_length (w : Nat) (v : SVInt) (h : v.length ≤ w) : (zext w v).length = w := by
  simp [zext]
  omega

/-- Two definite vectors of equal width with the same numeric value are the
same bit pattern. -/
theorem toNatVal_inj (a : SVInt) : ∀ (b : SVInt), a.length = b.length →
    hasUnknown a = false → hasUnknown b = false →
    toNatVal a = toNatVal b → a = b := by
  induction a with
  | nil =>
    intro b hlen _ _ _
    cases b with
    | nil => rfl
    | cons y ys => simp at hlen
  | cons x xs ih =>
    intro b hlen ha hb h
    cases b with
    | nil => simp at hlen
    | cons y ys =>
      simp only [List.length_cons, Nat.succ.injEq] at hlen
      simp only [hasUnknown, List.any_cons, Bool.or_eq_false_iff] at ha hb
      obtain ⟨hx, hxs⟩ := ha
      obtain ⟨hy, hys⟩ := hb
      simp only [toNatVal] at h
      have hrest : toNatVal xs = toNatVal ys ∧ x = y := by
        cases x <;> cases y <;>
          simp [LogicBit.isUnknown] at hx hy <;>
          simp [bitVal] at h <;>
          constructor <;> first | rfl | omega
      obtain ⟨h1, h2⟩ := hrest
      rw [h2, ih ys hlen hxs hys h1]

/-- On operands with only definite bits, logical equality coincides with case
equality (as a single definite bit). -/
theorem logicEq_definite (a b : SVInt) (ha : hasUnknown a = false)
    (hb : hasUnknown b = false) :
    logicEqSV a b = (if exactlyEqual a b then LogicBit.one else LogicBit.zero) := by
  have hiff : (toNatVal a = toNatVal b) ↔ exactlyEqual a b = true := by
    constructor
    · intro h
      unfold exactlyEqual
      simp only [decide_eq_true_eq]
      refine toNatVal_inj _ _ ?_ ?_ ?_ ?_
      · rw [zext_length _ _ (Nat.le_max_left _ _), zext_length _ _ (Nat.le_max_right _ _)]
      · rw [hasUnknown_zext]; exact ha
      · rw [hasUnknown_zext]; exact hb
      · rw [toNatVal_zext, toNatVal_zext]; exact h
    · intro h
      unfold exactlyEqual at h
      simp only [decide_eq_true_eq] at h
      have := congrArg toNatVal h
      rwa [toNatVal_zext, toNatVal_zext] at this
  unfold logicEqSV
  rw [ha, hb]
  simp only [Bool.or_self, Bool.false_eq_true, if_false]
  by_cases h : toNatVal a = toNatVal b
  · rw [if_pos h, if_pos (hiff.mp h)]
  · rw [if_neg h, if_neg (fun hc => h (hiff.mpr hc))]

/-- C7: on operands with only definite bits the logical-equality node and the
case-equality node evaluate identically; on a value containing an X bit,
logical equality of the value with itself yields the unknown logic value
(which collapses to false as a condition) while case equality yields definite
true — the two families are genuinely distinct operators. -/
theorem equality_families :
    (∀ (a b : SVInt) (S : EvalState), hasUnknown a = false → hasUnknown b = false →
      evaluate (.BinaryExpression .EqualityExpression (.Literal (some a) false)
          (.Literal (some b) false) false) S
        = evaluate (.BinaryExpression .CaseEqualityExpression (.Literal (some a) false)
          (.Literal (some b) false) false) S)
    ∧ (evaluate (.BinaryExpression .EqualityExpression (.Literal (some [LogicBit.xv]) false)
          (.Literal (some [LogicBit.xv]) false) false) initState
        = .ok (some [LogicBit.xv], initState)
      ∧ logicToBool LogicBit.xv = false
      ∧ evaluate (.BinaryExpression .CaseEqualityExpression (.Literal (some [LogicBit.xv]) false)
          (.Literal (some [LogicBit.xv]) false) false) initState
        = .ok (some [LogicBit.one], initState)) := by
  constructor
  · intro a b S ha hb
    simp [evaluate, BoundNode.bad, ConstantValue.integer, applyBinaryOp,
      logicEq_definite a b ha hb]
  · refine ⟨?_, rfl, ?_⟩ <;>
      simp [evaluate, BoundNode.bad, ConstantValue.integer, applyBinaryOp, logicEqSV,
        hasUnknown, LogicBit.isUnknown, exactlyEqual, zext]

/-- Witness for C7 on the definite operands 1 and 0. -/
theorem equality_families_witness :
    evaluate (.BinaryExpression .EqualityExpression (.Literal (some [LogicBit.one]) false)
        (.Literal (some [LogicBit.zero]) false) false) initState
      = evaluate (.BinaryExpression .CaseEqualityExpression (.Literal (some [LogicBit.one]) false)
        (.Literal (some [LogicBit.zero]) false) false) initState :=
  equality_families.1 [LogicBit.one] [LogicBit.zero] initState rfl rfl

end Slang
